import Mathlib

/-!
Verification of the `time-delta` library: the `SignedTime` value type
(`lib/SignedTime.ts`) and the derivation functions `duration` / `timeDiff`
(`lib/index.ts`), shallowly embedded in Lean.

JavaScript numbers are modelled as rationals (`ℚ`): every operation the
library performs on the millisecond totals (linear combinations, division by
a scalar, `Math.round`, `Math.floor`, `Math.abs`, `%`) is exact on the values
the claims quantify over, so the rational model agrees with IEEE doubles
within the safe-integer range the spec restricts attention to.
-/

/-- JS `Math.sign` on the rational model. -/
def qsign (q : ℚ) : ℚ := if 0 < q then 1 else if q < 0 then -1 else 0

/-- JS `%` (remainder). All uses in the library apply it to a non-negative
left operand and positive right operand, where truncated and floored
remainder coincide; we use the floored form. -/
def jsMod (a b : ℚ) : ℚ := a - b * (⌊a / b⌋ : ℚ)

/-- JS `Math.round`: nearest integer, ties toward positive infinity. -/
def jsRound (q : ℚ) : ℤ := ⌊q + 1 / 2⌋

/-- Error kinds raised by the library (it throws `Error` with distinct
messages; we model the distinct failure conditions as an enumeration). -/
inductive TDError
  /-- `'Invalid Date'` thrown by `duration`. -/
  | invalidInput
  /-- `'Invalid time string format...'` thrown by `fromFormat`. -/
  | formatMismatch
  /-- `'Invalid match index...'` thrown by `fromFormat`'s extraction loop. -/
  | invalidMatchIndex
  /-- `'Division by zero is not allowed'` thrown by `divide`. -/
  | divisionByZero
deriving DecidableEq, Repr

/-- `SignedTime` (`lib/SignedTime.ts`): the sole stored datum is the private
field `#totalMilliseconds`. -/
structure SignedTime where
  totalMilliseconds : ℚ
deriving DecidableEq, Repr

namespace SignedTime

/-- The constructor:
`this.#totalMilliseconds = hours * 3600000 + minutes * 60000 + seconds * 1000 + milliseconds`. -/
def new (hours : ℚ := 0) (minutes : ℚ := 0) (seconds : ℚ := 0)
    (milliseconds : ℚ := 0) : SignedTime :=
  ⟨hours * 3600000 + minutes * 60000 + seconds * 1000 + milliseconds⟩

/-- `SignedTime.fromMilliseconds`. -/
def fromMilliseconds (milliseconds : ℚ) : SignedTime :=
  new 0 0 0 milliseconds

/-- `SignedTime.fromHours`. -/
def fromHours (hours : ℚ) : SignedTime := new hours 0 0 0

/-- `SignedTime.fromMinutes`. -/
def fromMinutes (minutes : ℚ) : SignedTime := new 0 minutes 0 0

/-- `SignedTime.fromSeconds`. -/
def fromSeconds (seconds : ℚ) : SignedTime := new 0 0 seconds 0

/-- `add`. -/
def add (a b : SignedTime) : SignedTime :=
  fromMilliseconds (a.totalMilliseconds + b.totalMilliseconds)

/-- `subtract`. -/
def subtract (a b : SignedTime) : SignedTime :=
  fromMilliseconds (a.totalMilliseconds - b.totalMilliseconds)

/-- `multiply`. -/
def multiply (a : SignedTime) (scalar : ℚ) : SignedTime :=
  fromMilliseconds (a.totalMilliseconds * scalar)

/-- `divide`: `if (scalar === 0) throw ...` then
`fromMilliseconds(this.#totalMilliseconds / scalar)`. -/
def divide (a : SignedTime) (scalar : ℚ) : Except TDError SignedTime :=
  if scalar = 0 then .error .divisionByZero
  else .ok (fromMilliseconds (a.totalMilliseconds / scalar))

/-- `negate`. -/
def negate (a : SignedTime) : SignedTime :=
  fromMilliseconds (-a.totalMilliseconds)

/-- `abs`: `Math.abs(this.#totalMilliseconds)`. -/
def abs (a : SignedTime) : SignedTime :=
  fromMilliseconds |a.totalMilliseconds|

/-- `equals`. -/
def equals (a b : SignedTime) : Bool :=
  a.totalMilliseconds == b.totalMilliseconds

/-- `roundToSecond`: `Math.round(this.#totalMilliseconds / 1000) * 1000`. -/
def roundToSecond (a : SignedTime) : SignedTime :=
  fromMilliseconds ((jsRound (a.totalMilliseconds / 1000) : ℚ) * 1000)

/-- `roundToMinute`: `Math.round(this.#totalMilliseconds / 60000) * 60000`. -/
def roundToMinute (a : SignedTime) : SignedTime :=
  fromMilliseconds ((jsRound (a.totalMilliseconds / 60000) : ℚ) * 60000)

/-- `roundToHour`: `Math.round(this.#totalMilliseconds / 3600000) * 3600000`. -/
def roundToHour (a : SignedTime) : SignedTime :=
  fromMilliseconds ((jsRound (a.totalMilliseconds / 3600000) : ℚ) * 3600000)

/-- Getter `hours`:
`Math.floor(Math.abs(total) / 3600000) * Math.sign(total)`. -/
def hours (a : SignedTime) : ℚ :=
  (⌊|a.totalMilliseconds| / 3600000⌋ : ℚ) * qsign a.totalMilliseconds

/-- Getter `minutes`:
`Math.floor((Math.abs(total) % 3600000) / 60000) * Math.sign(total)`. -/
def minutes (a : SignedTime) : ℚ :=
  (⌊jsMod |a.totalMilliseconds| 3600000 / 60000⌋ : ℚ) * qsign a.totalMilliseconds

/-- Getter `seconds`:
`Math.floor((Math.abs(total) % 60000) / 1000) * Math.sign(total)`. -/
def seconds (a : SignedTime) : ℚ :=
  (⌊jsMod |a.totalMilliseconds| 60000 / 1000⌋ : ℚ) * qsign a.totalMilliseconds

/-- Getter `milliseconds`:
`(Math.abs(total) % 1000) * Math.sign(total)` (note: no `Math.floor`). -/
def milliseconds (a : SignedTime) : ℚ :=
  jsMod |a.totalMilliseconds| 1000 * qsign a.totalMilliseconds

end SignedTime

/-- The `DateLike` boundary type of `lib/index.ts` (`Date | string | number`),
together with the two nullish values the implementation checks for with
`from == null`.  A JS `Date` is represented by its `getTime()` value:
`none` when the timestamp is NaN (an invalid date), `some e` for epoch
millisecond `e`.  A string carries the result of JS date-string parsing
(`none` when unparseable); a number carries `none` exactly when it is NaN. -/
inductive DateLike
  | jsNull
  | jsUndefined
  | dateObj (t : Option ℤ)
  | strVal (parsed : Option ℤ)
  | numVal (v : Option ℤ)
deriving DecidableEq, Repr

/-- The loose-equality check `x == null`, true exactly for `null` and
`undefined`. -/
def DateLike.isNullish : DateLike → Bool
  | .jsNull => true
  | .jsUndefined => true
  | _ => false

/-- `new Date(x)` for a `DateLike` input, as its `getTime()` value
(`none` = NaN).  `new Date(null)` coerces `null` to `0`; `new Date(undefined)`
is an invalid date; a `Date` argument is copied; strings and numbers resolve
to their carried timestamp. -/
def newDate : DateLike → Option ℤ
  | .jsNull => some 0
  | .jsUndefined => none
  | .dateObj t => t
  | .strVal p => p
  | .numVal v => v

/-- The local time-of-day fields of a `Date` (`getHours()`, `getMinutes()`,
`getSeconds()`, `getMilliseconds()`). -/
structure TimeOfDay where
  hours : ℤ
  minutes : ℤ
  seconds : ℤ
  milliseconds : ℤ
deriving DecidableEq, Repr

/-- `SignedTime.fromDate`:
`new SignedTime(date.getHours(), date.getMinutes(), date.getSeconds(), date.getMilliseconds())`.
The local time-of-day of an epoch timestamp depends on the host timezone, so
the embedding is parametrized by a timezone function `tz` mapping epoch
milliseconds to the local clock fields. -/
def SignedTime.fromDate (tz : ℤ → TimeOfDay) (e : ℤ) : SignedTime :=
  SignedTime.new (tz e).hours (tz e).minutes (tz e).seconds (tz e).milliseconds

/-- The UTC timezone: a concrete instance of the timezone parameter
(ECMA-262 `HourFromTime` etc. are exactly these floor-division fields). -/
def utcZone : ℤ → TimeOfDay := fun e =>
  ⟨(Int.fdiv e 3600000).emod 24, (Int.fdiv e 60000).emod 60,
   (Int.fdiv e 1000).emod 60, e.emod 1000⟩

/-- `duration` (`lib/index.ts`): nullish check, `new Date` on both arguments,
NaN-timestamp check, then `toTime.subtract(fromTime)` on the two
`fromDate` time-of-day values. -/
def duration (tz : ℤ → TimeOfDay) (fromInput toInput : DateLike) :
    Except TDError SignedTime :=
  if fromInput.isNullish || toInput.isNullish then .error .invalidInput
  else
    match newDate fromInput, newDate toInput with
    | some fe, some te =>
        .ok ((SignedTime.fromDate tz te).subtract (SignedTime.fromDate tz fe))
    | _, _ => .error .invalidInput

/-- The `roundTo` option values accepted by `timeDiff`'s declared type. -/
inductive RoundUnit
  | hour
  | minute
  | second
  | millisecond
deriving DecidableEq, Repr

/-- The options object of `timeDiff`; `absolute` defaults to falsy and
`roundTo` to absent. -/
structure TimeDiffOptions where
  absolute : Bool := false
  roundTo : Option RoundUnit := none
deriving DecidableEq, Repr

/-- `timeDiff` (`lib/index.ts`): `duration`, then `abs()` when
`options.absolute` is truthy, then the `switch` on `options.roundTo`
(whose `default` branch — including `'millisecond'` — returns `diff`
unchanged). -/
def timeDiff (tz : ℤ → TimeOfDay) (fromInput toInput : DateLike)
    (options : TimeDiffOptions := {}) : Except TDError SignedTime :=
  match duration tz fromInput toInput with
  | .error e => .error e
  | .ok d =>
      let diff := if options.absolute then d.abs else d
      match options.roundTo with
      | some .hour => .ok diff.roundToHour
      | some .minute => .ok diff.roundToMinute
      | some .second => .ok diff.roundToSecond
      | _ => .ok diff

/-! ## Format mini-language (`fromFormat` / `formatMilliseconds`) -/

/-- The format tokens recognized by the library. -/
inductive FToken
  | hh
  | h
  | mm
  | m
  | ss
  | s
  | SSS
  | S
deriving DecidableEq, Repr

/-- One piece of a compiled format pattern: a literal character, or a digit
group with an allowed width range and the token it came from. -/
inductive FPiece
  | lit (c : Char)
  | grp (lo hi : Nat) (tk : FToken)
  /-- A digit capture group followed by the regex quantifier `+`
  (the format character `+` is NOT in the class `[/:.\s]` the source
  escapes, so it keeps its regex meaning when it directly follows a
  token's group). -/
  | plus (lo hi : Nat) (tk : FToken)
deriving DecidableEq, Repr

/-- Compilation of a format string into a pattern, as performed by the
`replace` chain in `fromFormat` (`hh → (\d{2})`, `h → (\d{1,2})`,
`mm → (\d{2})`, `m → (\d{1,2})`, `ss → (\d{2})`, `s → (\d{1,2})`,
`SSS → (\d{3})`, `S → (\d{1,3})`, everything else literal).  Because no
replacement text contains the characters `h`, `m`, `s` or `S`, the
sequential global replaces of the source are equivalent to this single
left-to-right scan trying the double (resp. triple) token before the single
one at every position; the same scan also yields the token sequence that
the source recovers separately with `format.match(/(hh|h|mm|m|ss|s|SSS|S)/g)`.
The trailing `.replace(/[/:.\s]/g, '\\$&')` escapes ONLY the characters
`/`, `:`, `.` and whitespace before the string reaches `new RegExp`, so a
non-token character outside that class keeps its regex meaning.  The scan
below is therefore faithful exactly on formats whose non-token characters
are regex-literal (no `( ) [ ] \x7b \x7d * + ? | ^ $ \`); additionally,
a `+` directly following a token is modelled faithfully as the regex
quantifier it becomes (a `plus` piece) — the behavior the spec's
"matched literally" sentence gets wrong.  Other metacharacter placements
(e.g. `(`, which even makes `new RegExp` throw) are outside the model and
outside the amended claim. -/
def scanFormat : List Char → List FPiece
  | [] => []
  | 'h' :: 'h' :: '+' :: rest => .plus 2 2 .hh :: scanFormat rest
  | 'h' :: 'h' :: rest => .grp 2 2 .hh :: scanFormat rest
  | 'h' :: '+' :: rest => .plus 1 2 .h :: scanFormat rest
  | 'h' :: rest => .grp 1 2 .h :: scanFormat rest
  | 'm' :: 'm' :: '+' :: rest => .plus 2 2 .mm :: scanFormat rest
  | 'm' :: 'm' :: rest => .grp 2 2 .mm :: scanFormat rest
  | 'm' :: '+' :: rest => .plus 1 2 .m :: scanFormat rest
  | 'm' :: rest => .grp 1 2 .m :: scanFormat rest
  | 's' :: 's' :: '+' :: rest => .plus 2 2 .ss :: scanFormat rest
  | 's' :: 's' :: rest => .grp 2 2 .ss :: scanFormat rest
  | 's' :: '+' :: rest => .plus 1 2 .s :: scanFormat rest
  | 's' :: rest => .grp 1 2 .s :: scanFormat rest
  | 'S' :: 'S' :: 'S' :: '+' :: rest => .plus 3 3 .SSS :: scanFormat rest
  | 'S' :: 'S' :: 'S' :: rest => .grp 3 3 .SSS :: scanFormat rest
  | 'S' :: '+' :: rest => .plus 1 3 .S :: scanFormat rest
  | 'S' :: rest => .grp 1 3 .S :: scanFormat rest
  | c :: rest => .lit c :: scanFormat rest

/-- The regex metacharacters the source does NOT escape (everything special
to `new RegExp` except `/`, `:`, `.` and whitespace, which are escaped by
`.replace(/[/:.\s]/g, '\\$&')`).  A format containing any of these is
interpreted by the regex engine, not literally. -/
def regexMetaChars : List Char :=
  ['(', ')', '[', ']', '\x7b', '\x7d', '*', '+', '?', '|', '^', '$', '\\']

/-- A format character on which the claim's "matched literally" reading
agrees with the code's regex: anything except an unescaped regex
metacharacter. -/
def safeFormatChar (c : Char) : Bool :=
  !(regexMetaChars.contains c)

/-- Modelled from the spec: the pattern compilation as the claim (and spec
§4.4) words it — each token a digit group, and EVERY other character
matched literally.  Used only to state the counterexample: the code's
`new RegExp` instead gives unescaped metacharacters their regex meaning. -/
def claimLiteralPattern : List Char → List FPiece
  | [] => []
  | 'h' :: 'h' :: rest => .grp 2 2 .hh :: claimLiteralPattern rest
  | 'h' :: rest => .grp 1 2 .h :: claimLiteralPattern rest
  | 'm' :: 'm' :: rest => .grp 2 2 .mm :: claimLiteralPattern rest
  | 'm' :: rest => .grp 1 2 .m :: claimLiteralPattern rest
  | 's' :: 's' :: rest => .grp 2 2 .ss :: claimLiteralPattern rest
  | 's' :: rest => .grp 1 2 .s :: claimLiteralPattern rest
  | 'S' :: 'S' :: 'S' :: rest => .grp 3 3 .SSS :: claimLiteralPattern rest
  | 'S' :: rest => .grp 1 3 .S :: claimLiteralPattern rest
  | c :: rest => .lit c :: claimLiteralPattern rest

/-- The token sequence of a format string
(`format.match(/(hh|h|mm|m|ss|s|SSS|S)/g)`). -/
def tokensOf (format : List Char) : List FToken :=
  (scanFormat format).filterMap fun p =>
    match p with
    | .grp _ _ tk => some tk
    | .plus _ _ tk => some tk
    | .lit _ => none

/-- Candidate widths for a digit group, greedy (largest first), mirroring
regex backtracking for `\d{lo,hi}`. -/
def widthList (lo hi : Nat) : List Nat :=
  (List.range (hi + 1 - lo)).map fun i => hi - i

/-- Try each candidate width for the digit group at the head of the input:
take `k` characters, require them all digits, and continue with `cont`;
on failure backtrack to the next (smaller) width. -/
def tryWidths (cont : List Char → Option (List (List Char)))
    (xs : List Char) : List Nat → Option (List (List Char))
  | [] => none
  | k :: ks =>
      let g := xs.take k
      if g.length = k ∧ g.all Char.isDigit then
        match cont (xs.drop k) with
        | some gs => some (g :: gs)
        | none => tryWidths cont xs ks
      else tryWidths cont xs ks

/-- One backtracking step of the regex `+` loop: try a further repetition of
the digit group (each candidate width, largest first) via `rep`; if every
continuation fails, stop iterating and fall back to `stop`. -/
def tryPlusWidths
    (rep : List Char → List Char → Option (List (List Char)))
    (stop : Option (List (List Char))) (xs : List Char) :
    List Nat → Option (List (List Char))
  | [] => stop
  | k :: ks =>
      let g := xs.take k
      if g.length = k ∧ g.all Char.isDigit then
        match rep g (xs.drop k) with
        | some r => some r
        | none => tryPlusWidths rep stop xs ks
      else tryPlusWidths rep stop xs ks

/-- The regex `(\d{lo,hi})+` loop after its first iteration: greedily try
another repetition (preferring it over stopping, as the engine does), and
on stopping record `last` — the LAST iteration's text — as the group's
capture, JS's semantics for a repeated capture group.  `fuel` bounds the
iteration count; since every iteration consumes at least `lo ≥ 1`
characters, `fuel ≥ xs.length` is always enough. -/
def matchPlusF (cont : List Char → Option (List (List Char))) (lo hi : Nat) :
    Nat → List Char → List Char → Option (List (List Char))
  | 0, last, xs => (cont xs).map (last :: ·)
  | fuel + 1, last, xs =>
      tryPlusWidths (fun g rest => matchPlusF cont lo hi fuel g rest)
        ((cont xs).map (last :: ·)) xs (widthList lo hi)

/-- Anchored match of a compiled pattern against an input, returning the
captured digit groups (fuelled; `fuel ≥ pieces.length + 1` always suffices). -/
def matchPiecesF : Nat → List FPiece → List Char → Option (List (List Char))
  | 0, _, _ => none
  | fuel + 1, ps, xs =>
      match ps with
      | [] => if xs.isEmpty then some [] else none
      | .lit c :: ps' =>
          match xs with
          | [] => none
          | x :: rest => if x = c then matchPiecesF fuel ps' rest else none
      | .grp lo hi _ :: ps' =>
          tryWidths (matchPiecesF fuel ps') xs (widthList lo hi)
      | .plus lo hi _ :: ps' =>
          tryPlusWidths
            (fun g rest =>
              matchPlusF (matchPiecesF fuel ps') lo hi rest.length g rest)
            none xs (widthList lo hi)

/-- Anchored match (`^pattern$`) of the compiled format against the cleaned
input, as `cleanTimeString.match(regex)`. -/
def matchPieces (ps : List FPiece) (xs : List Char) :
    Option (List (List Char)) :=
  matchPiecesF (ps.length + 1) ps xs

/-- Numeric value of a digit character. -/
def digitVal (c : Char) : Nat := c.toNat - 48

/-- `parseInt(g, 10)` on an all-digit capture. -/
def parseDigits (l : List Char) : Nat :=
  l.foldl (fun n c => n * 10 + digitVal c) 0

/-- The parsed component record built up by `fromFormat`'s extraction loop. -/
structure HMSMS where
  h : Nat
  m : Nat
  s : Nat
  ms : Nat
deriving DecidableEq, Repr

/-- The extraction loop of `fromFormat`: walk the token list, taking the
matching capture for each (`match[matchIndex]`, throwing when the index is
out of range) and overwriting the corresponding component. -/
def assignTokens : List FToken → List (List Char) → HMSMS →
    Except TDError HMSMS
  | [], _, acc => .ok acc
  | tk :: tks, gs, acc =>
      match gs with
      | [] => .error .invalidMatchIndex
      | g :: gs' =>
          let v := parseDigits g
          let acc' : HMSMS :=
            match tk with
            | .hh | .h => ⟨v, acc.m, acc.s, acc.ms⟩
            | .mm | .m => ⟨acc.h, v, acc.s, acc.ms⟩
            | .ss | .s => ⟨acc.h, acc.m, v, acc.ms⟩
            | .SSS | .S => ⟨acc.h, acc.m, acc.s, v⟩
          assignTokens tks gs' acc'

/-- The carry-normalization cascade of `fromFormat`
(ms ≥ 1000 → seconds, seconds ≥ 60 → minutes, minutes ≥ 60 → hours,
in that order; hours are never reduced). -/
def carryNormalize (x : HMSMS) : HMSMS :=
  let p1 : Nat × Nat :=
    if 1000 ≤ x.ms then (x.s + x.ms / 1000, x.ms % 1000) else (x.s, x.ms)
  let p2 : Nat × Nat :=
    if 60 ≤ p1.1 then (x.m + p1.1 / 60, p1.1 % 60) else (x.m, p1.1)
  let p3 : Nat × Nat :=
    if 60 ≤ p2.1 then (x.h + p2.1 / 60, p2.1 % 60) else (x.h, p2.1)
  ⟨p3.1, p3.2, p2.2, p1.2⟩

/-- The default format string `'hh:mm:ss.SSS'`. -/
def defaultFormat : List Char :=
  ['h', 'h', ':', 'm', 'm', ':', 's', 's', '.', 'S', 'S', 'S']

/-- `timeString.startsWith('-')`. -/
def startsWithNeg : List Char → Bool
  | [] => false
  | c :: _ => c == '-'

/-- Strips the optional leading `-` sign
(`isNegative ? timeString.slice(1) : timeString`). -/
def stripNeg (timeString : List Char) : List Char :=
  if startsWithNeg timeString then timeString.tail else timeString

/-- `SignedTime.fromFormat`: note the negative sign, compile the format,
match, extract by token, carry-normalize, construct, then negate when the
sign was present. -/
def SignedTime.fromFormat (timeString : List Char)
    (format : List Char := defaultFormat) : Except TDError SignedTime :=
  let isNegative : Bool := startsWithNeg timeString
  let cleanTimeString := stripNeg timeString
  match matchPieces (scanFormat format) cleanTimeString with
  | none => .error .formatMismatch
  | some gs =>
      match assignTokens (tokensOf format) gs ⟨0, 0, 0, 0⟩ with
      | .error e => .error e
      | .ok v0 =>
          let v := carryNormalize v0
          let t := SignedTime.new v.h v.m v.s v.ms
          .ok (if isNegative then t.negate else t)

/-! ## Rendering (`toString` / `formatMilliseconds`) -/

/-- Decimal digit character. -/
def digitChar : Nat → Char
  | 0 => '0'
  | 1 => '1'
  | 2 => '2'
  | 3 => '3'
  | 4 => '4'
  | 5 => '5'
  | 6 => '6'
  | 7 => '7'
  | 8 => '8'
  | _ => '9'

/-- Little-endian decimal digits of a positive number (fuelled;
`fuel ≥ n` always suffices since the argument is divided by 10 each step). -/
def digitsLEF : Nat → Nat → List Char
  | 0, _ => []
  | fuel + 1, n =>
      match n with
      | 0 => []
      | m + 1 => digitChar ((m + 1) % 10) :: digitsLEF fuel ((m + 1) / 10)

/-- JS `Number.prototype.toString` for a non-negative integer: standard
decimal notation. -/
def natToChars (n : Nat) : List Char :=
  if n = 0 then ['0'] else (digitsLEF n n).reverse

/-- JS `String.prototype.padStart(width, '0')`. -/
def padStart (width : Nat) (l : List Char) : List Char :=
  List.replicate (width - l.length) '0' ++ l

/-- JS `String.prototype.replace` with a plain-string needle: replaces the
first occurrence only; returns the string unchanged when the needle does not
occur. -/
def replaceFirst (haystack needle repl : List Char) : List Char :=
  match haystack with
  | [] => []
  | x :: rest =>
      if needle.isPrefixOf (x :: rest) then
        repl ++ (x :: rest).drop needle.length
      else x :: replaceFirst rest needle repl

/-- `SignedTime.formatMilliseconds`: decompose `Math.abs(milliseconds)` into
hours/minutes/seconds/ms, then run the `replace` chain (`hh`, `h`, `mm`,
`m`, `ss`, `s`, `SSS`, `S`, in source order, each replacing the first
occurrence only), and prepend `-` for a negative total.  Modelled for
integer millisecond totals (rendering of fractional totals would go through
JS float decimal printing, which the library never exercises from integer
inputs). -/
def formatMilliseconds (milliseconds : ℤ) (format : List Char) : List Char :=
  let absMs := milliseconds.natAbs
  let hours := absMs / 3600000
  let minutes := absMs % 3600000 / 60000
  let seconds := absMs % 60000 / 1000
  let ms := absMs % 1000
  let r1 := replaceFirst format ['h', 'h'] (padStart 2 (natToChars hours))
  let r2 := replaceFirst r1 ['h'] (natToChars hours)
  let r3 := replaceFirst r2 ['m', 'm'] (padStart 2 (natToChars minutes))
  let r4 := replaceFirst r3 ['m'] (natToChars minutes)
  let r5 := replaceFirst r4 ['s', 's'] (padStart 2 (natToChars seconds))
  let r6 := replaceFirst r5 ['s'] (natToChars seconds)
  let r7 := replaceFirst r6 ['S', 'S', 'S'] (padStart 3 (natToChars ms))
  let r8 := replaceFirst r7 ['S'] (natToChars ms)
  if milliseconds < 0 then '-' :: r8 else r8

/-- `toString`: `formatMilliseconds(this.#totalMilliseconds, format)`
(on the integer totals the rendering model covers; the floor is exact
there). -/
def SignedTime.toStr (t : SignedTime)
    (format : List Char := defaultFormat) : List Char :=
  formatMilliseconds ⌊t.totalMilliseconds⌋ format

/-! ## Bridge lemmas between the rational model and integer arithmetic -/

theorem qsign_intCast (n : ℤ) : qsign (n : ℚ) = (n.sign : ℚ) := by
  rcases lt_trichotomy n 0 with h | h | h
  · simp [qsign, h, Int.sign_eq_neg_one_iff_neg.mpr h, not_lt.mpr h.le,
      (by exact_mod_cast h : (n : ℚ) < 0)]
  · simp [qsign, h]
  · simp [qsign, h, Int.sign_eq_one_iff_pos.mpr h,
      (by exact_mod_cast h : (0 : ℚ) < n)]

theorem floor_natCast_div (a b : ℕ) : ⌊((a : ℚ) / (b : ℚ))⌋ = (a / b : ℕ) := by
  have h := Rat.floor_intCast_div_natCast (a : ℤ) b
  rw [← Int.natCast_div] at h
  have h2 : (((a : ℤ)) : ℚ) = (a : ℚ) := by norm_cast
  rw [h2] at h
  exact h

theorem jsMod_natCast (a b : ℕ) :
    jsMod (a : ℚ) (b : ℚ) = ((a % b : ℕ) : ℚ) := by
  rw [jsMod, floor_natCast_div, Int.cast_natCast]
  have h : ((b : ℚ)) * ((a / b : ℕ) : ℚ) + ((a % b : ℕ) : ℚ) = (a : ℚ) := by
    exact_mod_cast congrArg (fun n : ℕ => (n : ℚ)) (Nat.div_add_mod a b)
  linarith

theorem abs_intCast_q (n : ℤ) : |(n : ℚ)| = ((n.natAbs : ℕ) : ℚ) := by
  rw [Int.cast_natAbs]
  exact Int.cast_abs.symm

/-! ## Claim C2: constructor is a pure linear combination -/

/-- C2: for every integers `h`, `m`, `s`, `ms`, constructing a duration from
components yields `totalMilliseconds = h*3600000 + m*60000 + s*1000 + ms`,
with no bounds checking or normalization of out-of-range components. -/
theorem claim_C2_constructor_linear (h m s ms : ℤ) :
    (SignedTime.new (h : ℚ) (m : ℚ) (s : ℚ) (ms : ℚ)).totalMilliseconds =
      ((h * 3600000 + m * 60000 + s * 1000 + ms : ℤ) : ℚ) := by
  simp only [SignedTime.new]
  push_cast
  ring

/-! ## Claim C6: divide fails exactly on a zero divisor -/

/-- C6: `divide` fails with the division-by-zero error iff the scalar is
exactly `0`; for a nonzero scalar it returns the duration whose total is the
quotient. -/
theorem claim_C6_divide (a : SignedTime) (k : ℚ) :
    (a.divide k = .error .divisionByZero ↔ k = 0) ∧
    (k ≠ 0 →
      a.divide k = .ok (SignedTime.fromMilliseconds (a.totalMilliseconds / k))) := by
  refine ⟨⟨fun hf => ?_, fun hk => by simp [SignedTime.divide, hk]⟩,
    fun hk => by simp [SignedTime.divide, hk]⟩
  by_contra hk
  simp [SignedTime.divide, hk] at hf

/-- Witness for C6 at `a = 5 ms`, `k = 2`. -/
theorem claim_C6_divide_witness :
    (2 : ℚ) ≠ 0 ∧
      (SignedTime.fromMilliseconds 5).divide 2 =
        .ok (SignedTime.fromMilliseconds
          ((SignedTime.fromMilliseconds 5).totalMilliseconds / 2)) :=
  ⟨by norm_num, (claim_C6_divide (SignedTime.fromMilliseconds 5) 2).2 (by norm_num)⟩

/-! ## Claim C3: rounding semantics -/

/-- Modelled from the spec's glossary entry: round-half-away-from-zero —
nearest integer, with exact halves rounded to the integer of larger
magnitude (not toward positive infinity). -/
def roundHalfAwayFromZero (q : ℚ) : ℤ :=
  if 0 ≤ q then ⌊q + 1 / 2⌋ else -⌊-q + 1 / 2⌋

/-- C3 fails on the code: at `totalMilliseconds = -1500` the signed quotient
is `-1.5`; the spec's round-half-away-from-zero demands `-2` (result
`-2000 ms`) but `Math.round` yields `-1` (result `-1000 ms`). -/
theorem claim_C3_counterexample :
    (SignedTime.fromMilliseconds (-1500)).roundToSecond.totalMilliseconds ≠
      ((roundHalfAwayFromZero
        ((SignedTime.fromMilliseconds (-1500)).totalMilliseconds / 1000) : ℤ) : ℚ)
        * 1000 := by
  norm_num [SignedTime.fromMilliseconds, SignedTime.new, SignedTime.roundToSecond,
    jsRound, roundHalfAwayFromZero]

theorem jsRound_nearest (q : ℚ) :
    -(1 / 2 : ℚ) < (jsRound q : ℚ) - q ∧ (jsRound q : ℚ) - q ≤ 1 / 2 := by
  constructor
  · have h := Int.sub_one_lt_floor (q + 1 / 2)
    rw [jsRound]
    linarith
  · have h := Int.floor_le (q + 1 / 2)
    rw [jsRound]
    linarith

/-- C3 amended: each rounding method returns the duration
`k * unit` where `k` is the integer nearest to the signed quotient
`totalMilliseconds / unit` with ties resolved toward **positive infinity**
(JS `Math.round`): `k` is characterized by `-1/2 < k - q ≤ 1/2`, so a
quotient of `-1.5` rounds to `-1`, not `-2`; the result is always an exact
multiple of the unit. -/
theorem claim_C3_amended (t : SignedTime) :
    (∃ k : ℤ, t.roundToSecond.totalMilliseconds = (k : ℚ) * 1000 ∧
      -(1 / 2 : ℚ) < (k : ℚ) - t.totalMilliseconds / 1000 ∧
      (k : ℚ) - t.totalMilliseconds / 1000 ≤ 1 / 2) ∧
    (∃ k : ℤ, t.roundToMinute.totalMilliseconds = (k : ℚ) * 60000 ∧
      -(1 / 2 : ℚ) < (k : ℚ) - t.totalMilliseconds / 60000 ∧
      (k : ℚ) - t.totalMilliseconds / 60000 ≤ 1 / 2) ∧
    (∃ k : ℤ, t.roundToHour.totalMilliseconds = (k : ℚ) * 3600000 ∧
      -(1 / 2 : ℚ) < (k : ℚ) - t.totalMilliseconds / 3600000 ∧
      (k : ℚ) - t.totalMilliseconds / 3600000 ≤ 1 / 2) := by
  refine ⟨⟨jsRound (t.totalMilliseconds / 1000), ?_,
      (jsRound_nearest _).1, (jsRound_nearest _).2⟩,
    ⟨jsRound (t.totalMilliseconds / 60000), ?_,
      (jsRound_nearest _).1, (jsRound_nearest _).2⟩,
    ⟨jsRound (t.totalMilliseconds / 3600000), ?_,
      (jsRound_nearest _).1, (jsRound_nearest _).2⟩⟩ <;>
    simp [SignedTime.roundToSecond, SignedTime.roundToMinute,
      SignedTime.roundToHour, SignedTime.fromMilliseconds, SignedTime.new]

/-! ## Claim C8: component accessors decompose the absolute total -/

/-- The claim's formulation of the `hours` accessor: magnitude by integer
division of `abs(totalMilliseconds)`, sign of the total reapplied. -/
def specHours (n : ℤ) : ℤ := n.sign * (n.natAbs / 3600000 : ℕ)

/-- The claim's formulation of the `minutes` accessor. -/
def specMinutes (n : ℤ) : ℤ := n.sign * (n.natAbs % 3600000 / 60000 : ℕ)

/-- The claim's formulation of the `seconds` accessor. -/
def specSeconds (n : ℤ) : ℤ := n.sign * (n.natAbs % 60000 / 1000 : ℕ)

/-- The claim's formulation of the `milliseconds` accessor. -/
def specMillis (n : ℤ) : ℤ := n.sign * (n.natAbs % 1000 : ℕ)

theorem cast_3600000 : ((3600000 : ℕ) : ℚ) = 3600000 := by norm_num

theorem cast_60000 : ((60000 : ℕ) : ℚ) = 60000 := by norm_num

theorem cast_1000 : ((1000 : ℕ) : ℚ) = 1000 := by norm_num

theorem sign_mul_natCast_pos (n : ℤ) (X : ℕ) (h : (n.sign * X : ℤ) ≠ 0) :
    0 < (n.sign * X : ℤ) ↔ 0 < n := by
  have hX : (0 : ℤ) ≤ (X : ℤ) := Int.natCast_nonneg X
  rcases lt_trichotomy n 0 with h1 | h1 | h1
  · rw [Int.sign_eq_neg_one_iff_neg.mpr h1] at h ⊢
    omega
  · subst h1; simp at h
  · rw [Int.sign_eq_one_iff_pos.mpr h1] at h ⊢
    omega

/-- C8: for every instance whose total is an integer `n` (every instance the
library constructs from integer inputs; the spec leaves non-integral totals
unspecified), each component accessor equals the claim's
division/modulo decomposition of `|n|` with the sign of `n` reapplied, and
consequently every nonzero component has the sign of `totalMilliseconds`. -/
theorem claim_C8_components (t : SignedTime) (n : ℤ)
    (ht : t.totalMilliseconds = (n : ℚ)) :
    (t.hours = ((specHours n : ℤ) : ℚ) ∧
     t.minutes = ((specMinutes n : ℤ) : ℚ) ∧
     t.seconds = ((specSeconds n : ℤ) : ℚ) ∧
     t.milliseconds = ((specMillis n : ℤ) : ℚ)) ∧
    ((t.hours ≠ 0 → (0 < t.hours ↔ 0 < t.totalMilliseconds)) ∧
     (t.minutes ≠ 0 → (0 < t.minutes ↔ 0 < t.totalMilliseconds)) ∧
     (t.seconds ≠ 0 → (0 < t.seconds ↔ 0 < t.totalMilliseconds)) ∧
     (t.milliseconds ≠ 0 → (0 < t.milliseconds ↔ 0 < t.totalMilliseconds))) := by
  have habs : |t.totalMilliseconds| = ((n.natAbs : ℕ) : ℚ) := by
    rw [ht, abs_intCast_q]
  have hh : t.hours = ((specHours n : ℤ) : ℚ) := by
    rw [SignedTime.hours, habs, ht, qsign_intCast, ← cast_3600000,
      floor_natCast_div, specHours]
    push_cast
    ring
  have hm : t.minutes = ((specMinutes n : ℤ) : ℚ) := by
    rw [SignedTime.minutes, habs, ht, qsign_intCast, ← cast_3600000,
      jsMod_natCast, ← cast_60000, floor_natCast_div, specMinutes]
    push_cast
    ring
  have hs : t.seconds = ((specSeconds n : ℤ) : ℚ) := by
    rw [SignedTime.seconds, habs, ht, qsign_intCast, ← cast_60000,
      jsMod_natCast, ← cast_1000, floor_natCast_div, specSeconds]
    push_cast
    ring
  have hms : t.milliseconds = ((specMillis n : ℤ) : ℚ) := by
    rw [SignedTime.milliseconds, habs, ht, qsign_intCast, ← cast_1000,
      jsMod_natCast, specMillis, Int.cast_mul, Int.cast_natCast]
    ring
  refine ⟨⟨hh, hm, hs, hms⟩, ?_, ?_, ?_, ?_⟩
  · intro hne
    rw [hh] at hne ⊢
    rw [ht]
    have h0 : (specHours n : ℤ) ≠ 0 := by exact_mod_cast hne
    have := sign_mul_natCast_pos n (n.natAbs / 3600000 : ℕ) h0
    rw [specHours] at *
    constructor
    · intro hq; exact_mod_cast this.mp (by exact_mod_cast hq)
    · intro hq; exact_mod_cast this.mpr (by exact_mod_cast hq)
  · intro hne
    rw [hm] at hne ⊢
    rw [ht]
    have h0 : (specMinutes n : ℤ) ≠ 0 := by exact_mod_cast hne
    have := sign_mul_natCast_pos n (n.natAbs % 3600000 / 60000 : ℕ) h0
    rw [specMinutes] at *
    constructor
    · intro hq; exact_mod_cast this.mp (by exact_mod_cast hq)
    · intro hq; exact_mod_cast this.mpr (by exact_mod_cast hq)
  · intro hne
    rw [hs] at hne ⊢
    rw [ht]
    have h0 : (specSeconds n : ℤ) ≠ 0 := by exact_mod_cast hne
    have := sign_mul_natCast_pos n (n.natAbs % 60000 / 1000 : ℕ) h0
    rw [specSeconds] at *
    constructor
    · intro hq; exact_mod_cast this.mp (by exact_mod_cast hq)
    · intro hq; exact_mod_cast this.mpr (by exact_mod_cast hq)
  · intro hne
    rw [hms] at hne ⊢
    rw [ht]
    have h0 : (specMillis n : ℤ) ≠ 0 := by exact_mod_cast hne
    have := sign_mul_natCast_pos n (n.natAbs % 1000 : ℕ) h0
    rw [specMillis] at *
    constructor
    · intro hq; exact_mod_cast this.mp (by exact_mod_cast hq)
    · intro hq; exact_mod_cast this.mpr (by exact_mod_cast hq)

/-- Witness for C8 at the claim's own example, a negative duration of 1h30m
(`n = -5400000`): hours = −1 and minutes = −30, not −2 and +30. -/
theorem claim_C8_components_witness :
    (SignedTime.fromMilliseconds (-5400000)).hours = ((specHours (-5400000) : ℤ) : ℚ) ∧
      (SignedTime.fromMilliseconds (-5400000)).hours = -1 ∧
      (SignedTime.fromMilliseconds (-5400000)).minutes = ((specMinutes (-5400000) : ℤ) : ℚ) ∧
      (SignedTime.fromMilliseconds (-5400000)).minutes = -30 := by
  have ht : (SignedTime.fromMilliseconds (-5400000)).totalMilliseconds =
      ((-5400000 : ℤ) : ℚ) := by
    norm_num [SignedTime.fromMilliseconds, SignedTime.new]
  have h := (claim_C8_components (SignedTime.fromMilliseconds (-5400000))
    (-5400000) ht).1
  have hsgn : Int.sign (-5400000) = -1 := by decide
  refine ⟨h.1, ?_, h.2.1, ?_⟩
  · rw [h.1]
    norm_num [specHours, hsgn]
  · rw [h.2.1]
    norm_num [specMinutes, hsgn]

/-! ## Claim C1: duration's failure condition and success value -/

/-- C1: `duration` fails — always with the invalid-input error — exactly when
an argument is nullish or resolves to a NaN-timestamp instant; otherwise it
returns `fromDate(to).subtract(fromDate(from))` on the two instants'
time-of-day values. -/
theorem claim_C1_duration (tz : ℤ → TimeOfDay) (a b : DateLike) :
    ((∃ e, duration tz a b = .error e) ↔
      (a.isNullish = true ∨ b.isNullish = true ∨
        newDate a = none ∨ newDate b = none)) ∧
    (∀ e, duration tz a b = .error e → e = .invalidInput) ∧
    (∀ fe te, a.isNullish = false → b.isNullish = false →
      newDate a = some fe → newDate b = some te →
      duration tz a b =
        .ok ((SignedTime.fromDate tz te).subtract (SignedTime.fromDate tz fe))) := by
  refine ⟨⟨fun he => ?_, fun hc => ?_⟩, fun e he => ?_, fun fe te ha hb hfa hfb => ?_⟩
  · by_contra hc
    push_neg at hc
    obtain ⟨h1, h2, h3, h4⟩ := hc
    obtain ⟨fe, hfe⟩ := Option.ne_none_iff_exists'.mp h3
    obtain ⟨te, hte⟩ := Option.ne_none_iff_exists'.mp h4
    obtain ⟨e, he⟩ := he
    simp [duration, h1, h2, hfe, hte] at he
  · refine ⟨.invalidInput, ?_⟩
    rcases hc with h | h | h | h
    · simp [duration, h]
    · simp [duration, h, Bool.or_true]
    · rcases hn : a.isNullish with hfalse | htrue
      · simp [duration, hn, h]
      · simp [duration, hn]
    · rcases hn : a.isNullish with hfalse | htrue
      · rcases hn2 : b.isNullish with h2f | h2t
        · simp only [duration, hn, hn2, Bool.or_self, Bool.false_eq_true,
            if_false, h]
          rcases newDate a with _ | fe <;> rfl
        · simp [duration, hn, hn2]
      · simp [duration, hn]
  · rcases hn : a.isNullish with h1 | h1
    · rcases hn2 : b.isNullish with h2 | h2
      · rcases hfa : newDate a with _ | fe
        · simp [duration, hn, hn2, hfa] at he
          exact he.symm
        · rcases hfb : newDate b with _ | te
          · simp [duration, hn, hn2, hfa, hfb] at he
            exact he.symm
          · simp [duration, hn, hn2, hfa, hfb] at he
      · simp [duration, hn, hn2] at he
        exact he.symm
    · simp [duration, hn] at he
      exact he.symm
  · simp [duration, ha, hb, hfa, hfb]

/-- Witness for C1: `duration utcZone 0 5400000` succeeds with the
time-of-day difference. -/
theorem claim_C1_duration_witness :
    duration utcZone (.numVal (some 0)) (.numVal (some 5400000)) =
      .ok ((SignedTime.fromDate utcZone 5400000).subtract
        (SignedTime.fromDate utcZone 0)) :=
  (claim_C1_duration utcZone (.numVal (some 0)) (.numVal (some 5400000))).2.2
    0 5400000 rfl rfl rfl rfl

/-! ## Claim C10: only null/undefined are rejected as missing; epoch 0 passes -/

/-- C10: the nullish check rejects exactly `null` and `undefined`; the
numeric timestamp `0` is not rejected and (against a valid second argument)
produces a result, while the NaN numeric timestamp still fails with the
invalid-input error. -/
theorem claim_C10_zero_timestamp (tz : ℤ → TimeOfDay) (b : DateLike) :
    (∀ x : DateLike, x.isNullish = true ↔ x = .jsNull ∨ x = .jsUndefined) ∧
    (DateLike.numVal (some 0)).isNullish = false ∧
    (∀ te, b.isNullish = false → newDate b = some te →
      duration tz (.numVal (some 0)) b =
        .ok ((SignedTime.fromDate tz te).subtract (SignedTime.fromDate tz 0))) ∧
    duration tz (.numVal none) b = .error .invalidInput := by
  refine ⟨fun x => ?_, rfl, fun te hb hte => ?_, ?_⟩
  · cases x <;> simp [DateLike.isNullish]
  · have h1 : (DateLike.numVal (some 0)).isNullish = false := rfl
    have h2 : newDate (.numVal (some 0)) = some 0 := rfl
    simp [duration, hb, hte, h1, h2]
  · rcases hn : b.isNullish with h1 | h1
    · simp [duration, hn, newDate, DateLike.isNullish]
    · simp [duration, hn]

/-- Witness for C10 with `b` the epoch timestamp itself. -/
theorem claim_C10_zero_timestamp_witness :
    duration utcZone (.numVal (some 0)) (.numVal (some 0)) =
      .ok ((SignedTime.fromDate utcZone 0).subtract
        (SignedTime.fromDate utcZone 0)) :=
  (claim_C10_zero_timestamp utcZone (.numVal (some 0))).2.2.1 0 rfl rfl

/-! ## Claim C5: timeDiff = duration, then absolute, then rounding -/

/-- C5: `timeDiff` equals `duration` post-processed by `abs()` (when
`absolute`) and then the rounding named by `roundTo`, in that fixed order;
with no options it is `duration` unchanged, and it fails exactly when
`duration` fails, with the same error. -/
theorem claim_C5_timeDiff (tz : ℤ → TimeOfDay) (a b : DateLike)
    (options : TimeDiffOptions) :
    (timeDiff tz a b options =
      match duration tz a b with
      | .error e => .error e
      | .ok d =>
          let d1 := if options.absolute then d.abs else d
          .ok (match options.roundTo with
               | some .hour => d1.roundToHour
               | some .minute => d1.roundToMinute
               | some .second => d1.roundToSecond
               | _ => d1)) ∧
    timeDiff tz a b {} = duration tz a b ∧
    (∀ e, timeDiff tz a b options = .error e ↔ duration tz a b = .error e) := by
  refine ⟨?_, ?_, fun e => ?_⟩
  · rw [timeDiff]
    rcases duration tz a b with e | d
    · rfl
    · rcases options.roundTo with _ | u
      · rfl
      · rcases u <;> rfl
  · rw [timeDiff]
    rcases duration tz a b with e | d <;> rfl
  · rw [timeDiff]
    rcases duration tz a b with e' | d
    · simp
    · rcases options.roundTo with _ | u
      · simp
      · rcases u <;> simp

/-- Witness for C5: the error-propagation clause at a failing input. -/
theorem claim_C5_timeDiff_witness :
    timeDiff utcZone .jsNull .jsNull {} = .error .invalidInput :=
  (claim_C5_timeDiff utcZone .jsNull .jsNull {}).2.2 .invalidInput |>.mpr rfl

/-! ## Claim C9: roundTo 'millisecond' is accepted and applies no rounding -/

/-- C9: the declared `roundTo` type additionally contains `'millisecond'`,
which falls into the `switch`'s `default` branch: the result is identical to
omitting `roundTo`, i.e. `duration` (with `abs()` applied when `absolute`). -/
theorem claim_C9_millisecond (tz : ℤ → TimeOfDay) (a b : DateLike)
    (absFlag : Bool) :
    timeDiff tz a b ⟨absFlag, some .millisecond⟩ =
      timeDiff tz a b ⟨absFlag, none⟩ ∧
    timeDiff tz a b ⟨absFlag, some .millisecond⟩ =
      (duration tz a b).map (fun d => if absFlag then d.abs else d) := by
  constructor
  · rw [timeDiff, timeDiff]
  · rw [timeDiff]
    rcases duration tz a b with e | d <;> rfl

/-! ## Claim C7: fromFormat fails exactly on a non-matching input -/

/-- Whether a pattern piece contributes a capture group (a plain digit
group and a `+`-quantified one each occupy exactly one capture index). -/
def FPiece.isGrp : FPiece → Bool
  | .grp _ _ _ => true
  | .plus _ _ _ => true
  | .lit _ => false

theorem tryPlusWidths_length {L : Nat}
    (rep : List Char → List Char → Option (List (List Char)))
    (hrep : ∀ g rest r, rep g rest = some r → r.length = L + 1)
    (stop : Option (List (List Char)))
    (hstop : ∀ r, stop = some r → r.length = L + 1)
    (xs : List Char) :
    ∀ ws r, tryPlusWidths rep stop xs ws = some r → r.length = L + 1 := by
  intro ws
  induction ws with
  | nil => intro r h; exact hstop r h
  | cons k ks ih =>
      intro r h
      simp only [tryPlusWidths] at h
      split at h
      · rcases hcc : rep (xs.take k) (xs.drop k) with _ | r'
        · rw [hcc] at h
          exact ih r h
        · rw [hcc] at h
          injection h with h
          subst h
          exact hrep _ _ _ hcc
      · exact ih r h

theorem matchPlusF_length {L : Nat}
    (cont : List Char → Option (List (List Char)))
    (hcont : ∀ ys gs, cont ys = some gs → gs.length = L) (lo hi : Nat) :
    ∀ (fuel : Nat) (last xs : List Char) (r : List (List Char)),
      matchPlusF cont lo hi fuel last xs = some r → r.length = L + 1 := by
  intro fuel
  induction fuel with
  | zero =>
      intro last xs r h
      simp only [matchPlusF] at h
      rcases hcc : cont xs with _ | gs
      · rw [hcc] at h
        simp at h
      · rw [hcc] at h
        injection h with h
        subst h
        simp [hcont _ _ hcc]
  | succ fuel ih =>
      intro last xs r h
      simp only [matchPlusF] at h
      refine tryPlusWidths_length _ (fun g rest r' hr => ih g rest r' hr)
        _ ?_ xs (widthList lo hi) r h
      intro r' hr
      rcases hcc : cont xs with _ | gs
      · rw [hcc] at hr
        simp at hr
      · rw [hcc] at hr
        injection hr with hr
        subst hr
        simp [hcont _ _ hcc]

theorem tryWidths_length {L : Nat} (cont : List Char → Option (List (List Char)))
    (hcont : ∀ ys gs', cont ys = some gs' → gs'.length = L)
    (xs : List Char) :
    ∀ ws gs, tryWidths cont xs ws = some gs → gs.length = L + 1 := by
  intro ws
  induction ws with
  | nil => intro gs h; simp [tryWidths] at h
  | cons k ks ih =>
      intro gs h
      simp only [tryWidths] at h
      split at h
      · rcases hcc : cont (xs.drop k) with _ | gs'
        · rw [hcc] at h
          exact ih gs h
        · rw [hcc] at h
          injection h with h
          subst h
          simp [hcont _ _ hcc]
      · exact ih gs h

theorem matchPiecesF_length :
    ∀ (fuel : Nat) (ps : List FPiece) (xs : List Char) (gs : List (List Char)),
      matchPiecesF fuel ps xs = some gs →
      gs.length = ps.countP FPiece.isGrp := by
  intro fuel
  induction fuel with
  | zero => intro ps xs gs h; simp [matchPiecesF] at h
  | succ fuel ih =>
      intro ps xs gs h
      match ps with
      | [] =>
          simp only [matchPiecesF] at h
          split at h
          · injection h with h
            subst h
            simp
          · exact absurd h (by simp)
      | .lit c :: ps' =>
          simp only [matchPiecesF] at h
          rcases xs with _ | ⟨x, rest⟩
          · simp at h
          · simp only [] at h
            split at h
            · rw [List.countP_cons]
              simp only [FPiece.isGrp, Bool.false_eq_true, if_false, Nat.add_zero]
              exact ih ps' rest gs h
            · exact absurd h (by simp)
      | .grp lo hi tk :: ps' =>
          simp only [matchPiecesF] at h
          rw [List.countP_cons]
          simp only [FPiece.isGrp, if_true]
          exact tryWidths_length (matchPiecesF fuel ps')
            (fun ys gs' hy => ih ps' ys gs' hy) xs (widthList lo hi) gs h
      | .plus lo hi tk :: ps' =>
          simp only [matchPiecesF] at h
          rw [List.countP_cons]
          simp only [FPiece.isGrp, if_true]
          refine tryPlusWidths_length _ ?_ none (by simp) xs
            (widthList lo hi) gs h
          intro g rest r hr
          exact matchPlusF_length (matchPiecesF fuel ps')
            (fun ys gs' hy => ih ps' ys gs' hy) lo hi rest.length g rest r hr

theorem tokensOf_length (f : List Char) :
    (tokensOf f).length = (scanFormat f).countP FPiece.isGrp := by
  rw [tokensOf]
  induction scanFormat f with
  | nil => rfl
  | cons p ps ih =>
      rcases p with c | ⟨lo, hi, tk⟩ | ⟨lo, hi, tk⟩ <;>
        simp [List.countP_cons, FPiece.isGrp, ih]

theorem assignTokens_total :
    ∀ (tks : List FToken) (gs : List (List Char)) (acc : HMSMS),
      tks.length ≤ gs.length → ∃ v, assignTokens tks gs acc = .ok v := by
  intro tks
  induction tks with
  | nil => intro gs acc _; exact ⟨acc, rfl⟩
  | cons tk tks ih =>
      intro gs acc hle
      match gs with
      | [] => simp at hle
      | g :: gs' =>
          simp only [List.length_cons, Nat.add_le_add_iff_right] at hle
          simp only [assignTokens]
          exact ih gs' _ hle

/-- C7 as amended: for every format containing no unescaped regex
metacharacter (none of `( ) [ ] \x7b \x7d * + ? | ^ $ \` — the source
escapes only `/`, `:`, `.` and whitespace before `new RegExp`, so exactly
there the claim's "every other character is matched literally" reading is
what the code does), `fromFormat` fails — and then always with the
format-mismatch error — exactly when the input, after stripping an optional
leading `-`, does not match (anchored at both ends) the compiled pattern
(`hh`/`mm`/`ss` → exactly 2 digits, `SSS` → exactly 3, `h`/`m`/`s` → 1–2,
`S` → 1–3, remaining characters literal). -/
theorem claim_C7_fromFormat (ts f : List Char)
    (_hf : ∀ c ∈ f, safeFormatChar c = true) :
    (SignedTime.fromFormat ts f = .error .formatMismatch ↔
      matchPieces (scanFormat f) (stripNeg ts) = none) ∧
    (∀ e, SignedTime.fromFormat ts f = .error e → e = .formatMismatch) := by
  rcases hm : matchPieces (scanFormat f) (stripNeg ts) with _ | gs
  · constructor
    · constructor
      · intro _; rfl
      · intro _
        unfold SignedTime.fromFormat
        dsimp only
        rw [hm]
    · intro e he
      unfold SignedTime.fromFormat at he
      dsimp only at he
      rw [hm] at he
      injection he with he
      exact he.symm
  · have hlen : gs.length = (scanFormat f).countP FPiece.isGrp :=
      matchPiecesF_length _ _ _ _ hm
    have htks : (tokensOf f).length ≤ gs.length := by
      rw [tokensOf_length, hlen]
    obtain ⟨v, hv⟩ := assignTokens_total (tokensOf f) gs ⟨0, 0, 0, 0⟩ htks
    have hok : ∀ e, SignedTime.fromFormat ts f ≠ .error e := by
      intro e he
      unfold SignedTime.fromFormat at he
      dsimp only at he
      rw [hm] at he
      dsimp only at he
      rw [hv] at he
      dsimp only at he
      rcases hneg : startsWithNeg ts with h1 | h1
      · rw [hneg] at he
        simp at he
      · rw [hneg] at he
        simp at he
    constructor
    · constructor
      · intro he
        exact absurd he (hok _)
      · intro he
        exact absurd he (by simp)
    · intro e he
      exact absurd he (hok _)

/-- C7 fails as stated: at format `"h+"` the compiled regex is
`^(\d{1,2})+$`, whose `+` is a quantifier, so the code parses input `"11"`
successfully (two repetitions impossible, one greedy repetition captures
`"11"`, hours = 11) — while the claim's literal reading of `+` makes the
input a mismatch and demands a format-mismatch failure. -/
theorem claim_C7_counterexample :
    matchPieces (claimLiteralPattern ['h', '+']) (stripNeg ['1', '1']) =
        none ∧
      SignedTime.fromFormat ['1', '1'] ['h', '+'] ≠
        .error .formatMismatch ∧
      SignedTime.fromFormat ['1', '1'] ['h', '+'] =
        .ok (SignedTime.new ((11 : ℕ) : ℚ) ((0 : ℕ) : ℚ) ((0 : ℕ) : ℚ)
          ((0 : ℕ) : ℚ)) :=
  have h3 : SignedTime.fromFormat ['1', '1'] ['h', '+'] =
      .ok (SignedTime.new ((11 : ℕ) : ℚ) ((0 : ℕ) : ℚ) ((0 : ℕ) : ℚ)
        ((0 : ℕ) : ℚ)) := rfl
  ⟨by decide, by rw [h3]; exact fun h => Except.noConfusion h, h3⟩

/-- Witness for C7: the default format is metacharacter-free, and `'x'`
does not match it, so `fromFormat` raises the format-mismatch error. -/
theorem claim_C7_fromFormat_witness :
    (∀ c ∈ defaultFormat, safeFormatChar c = true) ∧
      SignedTime.fromFormat ['x'] defaultFormat = .error .formatMismatch :=
  ⟨by decide,
    (claim_C7_fromFormat ['x'] defaultFormat (by decide)).1.mpr (by decide)⟩

/-! ## Claim C4: digit-string lemmas -/

theorem digitChar_isDigit (k : Nat) : (digitChar k).isDigit = true := by
  rcases k with _ | _ | _ | _ | _ | _ | _ | _ | _ | k <;> rfl

theorem digitVal_digitChar (k : Nat) (hk : k < 10) :
    digitVal (digitChar k) = k := by
  interval_cases k <;> rfl

theorem digitsLEF_all_digit :
    ∀ (fuel n : Nat), ∀ c ∈ digitsLEF fuel n, c.isDigit = true := by
  intro fuel
  induction fuel with
  | zero => intro n c hc; simp [digitsLEF] at hc
  | succ fuel ih =>
      intro n c hc
      match n with
      | 0 => simp [digitsLEF] at hc
      | m + 1 =>
          simp only [digitsLEF, List.mem_cons] at hc
          rcases hc with hc | hc
          · rw [hc]; exact digitChar_isDigit _
          · exact ih _ c hc

theorem natToChars_all_digit (n : Nat) :
    ∀ c ∈ natToChars n, c.isDigit = true := by
  intro c hc
  rw [natToChars] at hc
  split at hc
  · simp at hc
    rw [hc]; rfl
  · rw [List.mem_reverse] at hc
    exact digitsLEF_all_digit n n c hc

theorem padStart_all_digit (w : Nat) (l : List Char)
    (hl : ∀ c ∈ l, c.isDigit = true) :
    ∀ c ∈ padStart w l, c.isDigit = true := by
  intro c hc
  rw [padStart, List.mem_append] at hc
  rcases hc with hc | hc
  · rw [List.eq_of_mem_replicate hc]; rfl
  · exact hl c hc

theorem parseDigits_append_singleton (l : List Char) (c : Char) :
    parseDigits (l ++ [c]) = 10 * parseDigits l + digitVal c := by
  rw [parseDigits, parseDigits, List.foldl_append]
  simp [Nat.mul_comm]

theorem parseDigits_digitsLEF :
    ∀ (fuel n : Nat), n ≤ fuel →
      parseDigits (digitsLEF fuel n).reverse = n := by
  intro fuel
  induction fuel with
  | zero =>
      intro n hn
      interval_cases n
      rfl
  | succ fuel ih =>
      intro n hn
      match n with
      | 0 => rfl
      | m + 1 =>
          have hdiv : (m + 1) / 10 ≤ fuel := by
            have := Nat.div_lt_self (Nat.succ_pos m) (by norm_num : 1 < 10)
            omega
          simp only [digitsLEF, List.reverse_cons]
          rw [parseDigits_append_singleton, ih _ hdiv,
            digitVal_digitChar _ (Nat.mod_lt _ (by norm_num))]
          omega

theorem parseDigits_natToChars (n : Nat) : parseDigits (natToChars n) = n := by
  rw [natToChars]
  split
  · subst n; rfl
  · exact parseDigits_digitsLEF n n le_rfl

theorem parseDigits_replicate_zero (k : Nat) (l : List Char) :
    parseDigits (List.replicate k '0' ++ l) = parseDigits l := by
  induction k with
  | zero => rfl
  | succ k ih =>
      rw [List.replicate_succ, List.cons_append]
      show parseDigits ('0' :: (List.replicate k '0' ++ l)) = _
      rw [parseDigits, List.foldl_cons]
      show List.foldl _ (0 * 10 + digitVal '0') _ = _
      have : 0 * 10 + digitVal '0' = 0 := rfl
      rw [this]
      exact ih

theorem parseDigits_padStart (w : Nat) (l : List Char) :
    parseDigits (padStart w l) = parseDigits l :=
  parseDigits_replicate_zero _ l

theorem digitsLEF_length :
    ∀ (fuel n k : Nat), n ≤ fuel → n < 10 ^ k →
      (digitsLEF fuel n).length ≤ k := by
  intro fuel
  induction fuel with
  | zero =>
      intro n k hn _
      interval_cases n
      simp [digitsLEF]
  | succ fuel ih =>
      intro n k hn hk
      match n with
      | 0 => simp [digitsLEF]
      | m + 1 =>
          match k with
          | 0 => simp at hk
          | k + 1 =>
              simp only [digitsLEF, List.length_cons]
              have hdiv10 : (m + 1) / 10 < 10 ^ k := by
                rw [Nat.div_lt_iff_lt_mul (by norm_num : 0 < 10)]
                calc m + 1 < 10 ^ (k + 1) := hk
                  _ = 10 ^ k * 10 := by ring
              have hle : (m + 1) / 10 ≤ fuel := by
                have := Nat.div_lt_self (Nat.succ_pos m) (by norm_num : 1 < 10)
                omega
              have := ih ((m + 1) / 10) k hle hdiv10
              omega

theorem natToChars_length_le (n k : Nat) (hk : 1 ≤ k) (hn : n < 10 ^ k) :
    (natToChars n).length ≤ k := by
  rw [natToChars]
  split
  · simpa using hk
  · rw [List.length_reverse]
    exact digitsLEF_length n n k le_rfl hn

theorem padStart_length_eq (w : Nat) (l : List Char) (hl : l.length ≤ w) :
    (padStart w l).length = w := by
  rw [padStart, List.length_append, List.length_replicate]
  omega

theorem padStart_length_exact (w n : Nat) (hw : 1 ≤ w) (hn : n < 10 ^ w) :
    (padStart w (natToChars n)).length = w :=
  padStart_length_eq w _ (natToChars_length_le n w hw hn)

/-! ## Claim C4: replaceFirst lemmas -/

theorem replaceFirst_head (c0 : Char) (ntl rest repl : List Char) :
    replaceFirst ((c0 :: ntl) ++ rest) (c0 :: ntl) repl = repl ++ rest := by
  rw [List.cons_append, replaceFirst]
  rw [if_pos]
  · rw [← List.cons_append, List.length_cons, ← List.length_cons c0 ntl,
      List.drop_left]
  · rw [← List.cons_append, List.isPrefixOf_iff_prefix]
    exact List.prefix_append _ _

theorem replaceFirst_not_mem (hay : List Char) (c0 : Char)
    (ntl repl : List Char) (hc : c0 ∉ hay) :
    replaceFirst hay (c0 :: ntl) repl = hay := by
  induction hay with
  | nil => rfl
  | cons x rest ih =>
      have hx : c0 ≠ x := fun he => hc (he ▸ List.mem_cons_self x rest)
      rw [replaceFirst, if_neg, ih fun hm => hc (List.mem_cons_of_mem _ hm)]
      intro habs
      rw [List.isPrefixOf_iff_prefix] at habs
      obtain ⟨t, ht⟩ := habs
      rw [List.cons_append] at ht
      injection ht with h1 _
      exact hx h1

theorem replaceFirst_append_left (a b : List Char) (c0 : Char)
    (ntl repl : List Char) (hc : c0 ∉ a) :
    replaceFirst (a ++ b) (c0 :: ntl) repl =
      a ++ replaceFirst b (c0 :: ntl) repl := by
  induction a with
  | nil => rfl
  | cons x xs ih =>
      have hx : c0 ≠ x := fun he => hc (he ▸ List.mem_cons_self x xs)
      rw [List.cons_append, replaceFirst, if_neg,
        ih fun hm => hc (List.mem_cons_of_mem _ hm), List.cons_append]
      intro habs
      rw [List.isPrefixOf_iff_prefix] at habs
      obtain ⟨t, ht⟩ := habs
      rw [List.cons_append] at ht
      injection ht with h1 _
      exact hx h1

theorem not_mem_of_all_digit (l : List Char) (ch : Char)
    (hall : ∀ c ∈ l, c.isDigit = true) (hch : ch.isDigit = false) :
    ch ∉ l := by
  intro hm
  rw [hall ch hm] at hch
  cases hch

/-! ## Claim C4: the replace chain on the default format -/

theorem defaultFormat_chain (H2 M2 S2 MS3 Hs Ms Ss MSs : List Char)
    (hH2 : ∀ c ∈ H2, c.isDigit = true) (hM2 : ∀ c ∈ M2, c.isDigit = true)
    (hS2 : ∀ c ∈ S2, c.isDigit = true)
    (hMS3 : ∀ c ∈ MS3, c.isDigit = true) :
    replaceFirst (replaceFirst (replaceFirst (replaceFirst (replaceFirst
      (replaceFirst (replaceFirst (replaceFirst defaultFormat
        ['h', 'h'] H2) ['h'] Hs) ['m', 'm'] M2) ['m'] Ms) ['s', 's'] S2)
        ['s'] Ss) ['S', 'S', 'S'] MS3) ['S'] MSs =
      H2 ++ [':'] ++ M2 ++ [':'] ++ S2 ++ ['.'] ++ MS3 := by
  have hhH2 : 'h' ∉ H2 := not_mem_of_all_digit H2 'h' hH2 rfl
  have hmH2 : 'm' ∉ H2 := not_mem_of_all_digit H2 'm' hH2 rfl
  have hsH2 : 's' ∉ H2 := not_mem_of_all_digit H2 's' hH2 rfl
  have hSH2 : 'S' ∉ H2 := not_mem_of_all_digit H2 'S' hH2 rfl
  have hmM2 : 'm' ∉ M2 := not_mem_of_all_digit M2 'm' hM2 rfl
  have hsM2 : 's' ∉ M2 := not_mem_of_all_digit M2 's' hM2 rfl
  have hSM2 : 'S' ∉ M2 := not_mem_of_all_digit M2 'S' hM2 rfl
  have hsS2 : 's' ∉ S2 := not_mem_of_all_digit S2 's' hS2 rfl
  have hSS2 : 'S' ∉ S2 := not_mem_of_all_digit S2 'S' hS2 rfl
  have hSMS3 : 'S' ∉ MS3 := not_mem_of_all_digit MS3 'S' hMS3 rfl
  have e1 : replaceFirst defaultFormat ['h', 'h'] H2 =
      H2 ++ [':', 'm', 'm', ':', 's', 's', '.', 'S', 'S', 'S'] :=
    replaceFirst_head 'h' ['h']
      [':', 'm', 'm', ':', 's', 's', '.', 'S', 'S', 'S'] H2
  rw [e1]
  have e2 : replaceFirst
      (H2 ++ [':', 'm', 'm', ':', 's', 's', '.', 'S', 'S', 'S']) ['h'] Hs =
      H2 ++ [':', 'm', 'm', ':', 's', 's', '.', 'S', 'S', 'S'] := by
    refine replaceFirst_not_mem _ 'h' [] Hs ?_
    simp only [List.mem_append, not_or]
    exact ⟨hhH2, by decide⟩
  rw [e2]
  have a1 : H2 ++ [':', 'm', 'm', ':', 's', 's', '.', 'S', 'S', 'S'] =
      (H2 ++ [':']) ++ ['m', 'm', ':', 's', 's', '.', 'S', 'S', 'S'] :=
    (List.append_assoc H2 [':'] _).symm
  rw [a1]
  have e3 : replaceFirst
      ((H2 ++ [':']) ++ ['m', 'm', ':', 's', 's', '.', 'S', 'S', 'S'])
        ['m', 'm'] M2 =
      (H2 ++ [':']) ++ (M2 ++ [':', 's', 's', '.', 'S', 'S', 'S']) := by
    rw [replaceFirst_append_left _ _ 'm' ['m'] M2
      (by simp only [List.mem_append, not_or]; exact ⟨hmH2, by decide⟩)]
    rw [show replaceFirst ['m', 'm', ':', 's', 's', '.', 'S', 'S', 'S']
        ['m', 'm'] M2 = M2 ++ [':', 's', 's', '.', 'S', 'S', 'S'] from
      replaceFirst_head 'm' ['m'] [':', 's', 's', '.', 'S', 'S', 'S'] M2]
  rw [e3]
  have e4 : replaceFirst
      ((H2 ++ [':']) ++ (M2 ++ [':', 's', 's', '.', 'S', 'S', 'S']))
        ['m'] Ms =
      (H2 ++ [':']) ++ (M2 ++ [':', 's', 's', '.', 'S', 'S', 'S']) := by
    refine replaceFirst_not_mem _ 'm' [] Ms ?_
    simp only [List.mem_append, not_or]
    exact ⟨⟨hmH2, by decide⟩, hmM2, by decide⟩
  rw [e4]
  have a2 : (H2 ++ [':']) ++ (M2 ++ [':', 's', 's', '.', 'S', 'S', 'S']) =
      ((H2 ++ [':']) ++ (M2 ++ [':'])) ++ ['s', 's', '.', 'S', 'S', 'S'] := by
    simp
  rw [a2]
  have e5 : replaceFirst
      (((H2 ++ [':']) ++ (M2 ++ [':'])) ++ ['s', 's', '.', 'S', 'S', 'S'])
        ['s', 's'] S2 =
      ((H2 ++ [':']) ++ (M2 ++ [':'])) ++ (S2 ++ ['.', 'S', 'S', 'S']) := by
    rw [replaceFirst_append_left _ _ 's' ['s'] S2
      (by simp only [List.mem_append, not_or]
          exact ⟨⟨hsH2, by decide⟩, hsM2, by decide⟩)]
    rw [show replaceFirst ['s', 's', '.', 'S', 'S', 'S'] ['s', 's'] S2 =
        S2 ++ ['.', 'S', 'S', 'S'] from
      replaceFirst_head 's' ['s'] ['.', 'S', 'S', 'S'] S2]
  rw [e5]
  have e6 : replaceFirst
      (((H2 ++ [':']) ++ (M2 ++ [':'])) ++ (S2 ++ ['.', 'S', 'S', 'S']))
        ['s'] Ss =
      ((H2 ++ [':']) ++ (M2 ++ [':'])) ++ (S2 ++ ['.', 'S', 'S', 'S']) := by
    refine replaceFirst_not_mem _ 's' [] Ss ?_
    simp only [List.mem_append, not_or]
    exact ⟨⟨⟨hsH2, by decide⟩, hsM2, by decide⟩, hsS2, by decide⟩
  rw [e6]
  have a3 : ((H2 ++ [':']) ++ (M2 ++ [':'])) ++ (S2 ++ ['.', 'S', 'S', 'S']) =
      (((H2 ++ [':']) ++ (M2 ++ [':'])) ++ (S2 ++ ['.'])) ++
        ['S', 'S', 'S'] := by
    simp
  rw [a3]
  have e7 : replaceFirst
      ((((H2 ++ [':']) ++ (M2 ++ [':'])) ++ (S2 ++ ['.'])) ++
        ['S', 'S', 'S']) ['S', 'S', 'S'] MS3 =
      (((H2 ++ [':']) ++ (M2 ++ [':'])) ++ (S2 ++ ['.'])) ++ (MS3 ++ []) := by
    rw [replaceFirst_append_left _ _ 'S' ['S', 'S'] MS3
      (by simp only [List.mem_append, not_or]
          exact ⟨⟨⟨hSH2, by decide⟩, hSM2, by decide⟩, hSS2, by decide⟩)]
    rw [show replaceFirst ['S', 'S', 'S'] ['S', 'S', 'S'] MS3 =
        MS3 ++ [] from replaceFirst_head 'S' ['S', 'S'] [] MS3]
  rw [e7]
  have e8 : replaceFirst
      ((((H2 ++ [':']) ++ (M2 ++ [':'])) ++ (S2 ++ ['.'])) ++ (MS3 ++ []))
        ['S'] MSs =
      (((H2 ++ [':']) ++ (M2 ++ [':'])) ++ (S2 ++ ['.'])) ++ (MS3 ++ []) := by
    refine replaceFirst_not_mem _ 'S' [] MSs ?_
    simp only [List.mem_append, not_or]
    exact ⟨⟨⟨⟨hSH2, by decide⟩, hSM2, by decide⟩, hSS2, by decide⟩,
      hSMS3, by simp⟩
  rw [e8]
  simp [List.append_assoc]

/-! ## Claim C4: matching the default pattern against a rendered string -/

theorem widthList_self (k : Nat) : widthList k k = [k] := by
  rw [widthList]
  have h1 : k + 1 - k = 1 := by omega
  have h2 : List.range 1 = [0] := by decide
  rw [h1, h2]
  simp

theorem matchPieces_lit (c : Char) (ps : List FPiece) (xs : List Char) :
    matchPieces (.lit c :: ps) (c :: xs) = matchPieces ps xs := by
  simp only [matchPieces, List.length_cons, matchPiecesF, if_pos]

theorem matchPieces_grp_exact (k : Nat) (tk : FToken) (ps : List FPiece)
    (g xs : List Char) (hg : g.length = k) (hd : g.all Char.isDigit = true) :
    matchPieces (.grp k k tk :: ps) (g ++ xs) =
      (matchPieces ps xs).map (g :: ·) := by
  have hstep : matchPieces (.grp k k tk :: ps) (g ++ xs) =
      tryWidths (matchPieces ps) (g ++ xs) (widthList k k) := rfl
  rw [hstep, widthList_self, tryWidths]
  rw [List.take_left' hg, List.drop_left' hg, if_pos ⟨hg, hd⟩]
  rcases hres : matchPieces ps xs with _ | gs
  · rw [tryWidths]
    rfl
  · rfl

theorem matchPieces_grp_last (k : Nat) (tk : FToken) (g : List Char)
    (hg : g.length = k) (hd : g.all Char.isDigit = true) :
    matchPieces [.grp k k tk] g = some [g] := by
  have h := matchPieces_grp_exact k tk [] g [] hg hd
  rw [List.append_nil] at h
  rw [h]
  rfl

theorem formatMilliseconds_default (n : ℤ) :
    formatMilliseconds n defaultFormat =
      (if n < 0 then ['-'] else []) ++
        (padStart 2 (natToChars (n.natAbs / 3600000)) ++ [':'] ++
          padStart 2 (natToChars (n.natAbs % 3600000 / 60000)) ++ [':'] ++
          padStart 2 (natToChars (n.natAbs % 60000 / 1000)) ++ ['.'] ++
          padStart 3 (natToChars (n.natAbs % 1000))) := by
  unfold formatMilliseconds
  dsimp only
  rw [defaultFormat_chain _ _ _ _ _ _ _ _
    (padStart_all_digit _ _ (natToChars_all_digit _))
    (padStart_all_digit _ _ (natToChars_all_digit _))
    (padStart_all_digit _ _ (natToChars_all_digit _))
    (padStart_all_digit _ _ (natToChars_all_digit _))]
  split
  · simp [List.append_assoc]
  · simp [List.append_assoc]

theorem scanFormat_default :
    scanFormat defaultFormat =
      [.grp 2 2 .hh, .lit ':', .grp 2 2 .mm, .lit ':', .grp 2 2 .ss,
        .lit '.', .grp 3 3 .SSS] := rfl

theorem matchPieces_default (a b c d : List Char)
    (ha2 : a.length = 2) (hb2 : b.length = 2) (hc2 : c.length = 2)
    (hd3 : d.length = 3)
    (hda : a.all Char.isDigit = true) (hdb : b.all Char.isDigit = true)
    (hdc : c.all Char.isDigit = true) (hdd : d.all Char.isDigit = true) :
    matchPieces (scanFormat defaultFormat)
      (a ++ [':'] ++ b ++ [':'] ++ c ++ ['.'] ++ d) = some [a, b, c, d] := by
  rw [scanFormat_default]
  simp only [List.append_assoc, List.singleton_append, List.cons_append,
    List.nil_append]
  rw [matchPieces_grp_exact 2 .hh _ a _ ha2 hda]
  rw [matchPieces_lit ':' _ _]
  rw [matchPieces_grp_exact 2 .mm _ b _ hb2 hdb]
  rw [matchPieces_lit ':' _ _]
  rw [matchPieces_grp_exact 2 .ss _ c _ hc2 hdc]
  rw [matchPieces_lit '.' _ _]
  rw [matchPieces_grp_last 3 .SSS d hd3 hdd]
  rfl

/-! ## Claim C4: end-to-end fromFormat on a rendered default-format string -/

theorem fromFormat_eq_general (ts f : List Char) :
    SignedTime.fromFormat ts f =
      match matchPieces (scanFormat f) (stripNeg ts) with
      | none => .error .formatMismatch
      | some gs =>
          match assignTokens (tokensOf f) gs ⟨0, 0, 0, 0⟩ with
          | .error e => .error e
          | .ok v0 =>
              let v := carryNormalize v0
              let t := SignedTime.new v.h v.m v.s v.ms
              .ok (if startsWithNeg ts then t.negate else t) := rfl

theorem startsWithNeg_chain (a b c d : List Char) (c0 : Char) (t0 : List Char)
    (hav : a = c0 :: t0) (hc0 : c0.isDigit = true) :
    startsWithNeg (a ++ [':'] ++ b ++ [':'] ++ c ++ ['.'] ++ d) = false := by
  subst hav
  simp only [List.cons_append, List.append_assoc]
  show (c0 == '-') = false
  rw [beq_eq_false_iff_ne]
  intro he
  rw [he] at hc0
  exact absurd hc0 (by decide)

theorem stripNeg_of_not_neg (l : List Char) (h : startsWithNeg l = false) :
    stripNeg l = l := by
  rw [stripNeg, h]
  rfl

theorem stripNeg_cons_neg (l : List Char) : stripNeg ('-' :: l) = l := by
  simp [stripNeg, startsWithNeg]

theorem carryNormalize_id (x : HMSMS) (hm : x.m < 60) (hs : x.s < 60)
    (hms : x.ms < 1000) : carryNormalize x = x := by
  unfold carryNormalize
  dsimp only
  rw [if_neg (show ¬1000 ≤ x.ms by omega)]
  dsimp only
  rw [if_neg (show ¬60 ≤ x.s by omega)]
  dsimp only
  rw [if_neg (show ¬60 ≤ x.m by omega)]

theorem fromFormat_default_core (a b c d : List Char)
    (ha2 : a.length = 2) (hb2 : b.length = 2) (hc2 : c.length = 2)
    (hd3 : d.length = 3)
    (hda : a.all Char.isDigit = true) (hdb : b.all Char.isDigit = true)
    (hdc : c.all Char.isDigit = true) (hdd : d.all Char.isDigit = true)
    (hM : parseDigits b < 60) (hS : parseDigits c < 60)
    (hMS : parseDigits d < 1000)
    (c0 : Char) (t0 : List Char) (hav : a = c0 :: t0)
    (hc0 : c0.isDigit = true) :
    SignedTime.fromFormat (a ++ [':'] ++ b ++ [':'] ++ c ++ ['.'] ++ d)
        defaultFormat =
      .ok (SignedTime.new (parseDigits a) (parseDigits b) (parseDigits c)
        (parseDigits d)) := by
  have hsw := startsWithNeg_chain a b c d c0 t0 hav hc0
  rw [fromFormat_eq_general]
  rw [stripNeg_of_not_neg _ hsw]
  rw [matchPieces_default a b c d ha2 hb2 hc2 hd3 hda hdb hdc hdd]
  dsimp only
  rw [show assignTokens (tokensOf defaultFormat) [a, b, c, d] ⟨0, 0, 0, 0⟩ =
      Except.ok ⟨parseDigits a, parseDigits b, parseDigits c, parseDigits d⟩
    from rfl]
  dsimp only
  rw [carryNormalize_id ⟨parseDigits a, parseDigits b, parseDigits c,
    parseDigits d⟩ hM hS hMS]
  rw [hsw]
  rfl

theorem fromFormat_default_core_neg (a b c d : List Char)
    (ha2 : a.length = 2) (hb2 : b.length = 2) (hc2 : c.length = 2)
    (hd3 : d.length = 3)
    (hda : a.all Char.isDigit = true) (hdb : b.all Char.isDigit = true)
    (hdc : c.all Char.isDigit = true) (hdd : d.all Char.isDigit = true)
    (hM : parseDigits b < 60) (hS : parseDigits c < 60)
    (hMS : parseDigits d < 1000) :
    SignedTime.fromFormat
        ('-' :: (a ++ [':'] ++ b ++ [':'] ++ c ++ ['.'] ++ d))
        defaultFormat =
      .ok (SignedTime.new (parseDigits a) (parseDigits b) (parseDigits c)
        (parseDigits d)).negate := by
  rw [fromFormat_eq_general]
  rw [stripNeg_cons_neg]
  rw [matchPieces_default a b c d ha2 hb2 hc2 hd3 hda hdb hdc hdd]
  dsimp only
  rw [show assignTokens (tokensOf defaultFormat) [a, b, c, d] ⟨0, 0, 0, 0⟩ =
      Except.ok ⟨parseDigits a, parseDigits b, parseDigits c, parseDigits d⟩
    from rfl]
  dsimp only
  rw [carryNormalize_id ⟨parseDigits a, parseDigits b, parseDigits c,
    parseDigits d⟩ hM hS hMS]
  rfl

theorem parseDigits_pad_nat (w m : Nat) :
    parseDigits (padStart w (natToChars m)) = m := by
  rw [parseDigits_padStart, parseDigits_natToChars]

theorem padStart2_length (m : Nat) (hm : m < 100) :
    (padStart 2 (natToChars m)).length = 2 :=
  padStart_length_exact 2 m (by norm_num)
    (by rw [show (10 : ℕ) ^ 2 = 100 from by norm_num]; exact hm)

theorem padStart3_length (m : Nat) (hm : m < 1000) :
    (padStart 3 (natToChars m)).length = 3 :=
  padStart_length_exact 3 m (by norm_num)
    (by rw [show (10 : ℕ) ^ 3 = 1000 from by norm_num]; exact hm)

theorem padStart_all_digit_bool (w m : Nat) :
    (padStart w (natToChars m)).all Char.isDigit = true := by
  rw [List.all_eq_true]
  intro x hx
  exact padStart_all_digit w _ (natToChars_all_digit m) x hx

theorem padStart_two_cons (m : Nat) (hm : m < 100) :
    ∃ c0 t0, padStart 2 (natToChars m) = c0 :: t0 ∧ c0.isDigit = true := by
  have hlen := padStart2_length m hm
  rcases hp : padStart 2 (natToChars m) with _ | ⟨c0, t0⟩
  · rw [hp] at hlen
    simp at hlen
  · refine ⟨c0, t0, rfl, ?_⟩
    refine padStart_all_digit 2 (natToChars m) (natToChars_all_digit m) c0 ?_
    rw [hp]
    exact List.mem_cons_self _ _

/-- C4: for every duration with integer total whose hour magnitude fits the
two-digit token (`|hours| ≤ 99`), parsing back its default-format rendering
recovers an equal duration:
`fromFormat(x.toString('hh:mm:ss.SSS'), 'hh:mm:ss.SSS').equals(x)`. -/
theorem claim_C4_roundtrip (n : ℤ) (hh99 : n.natAbs / 3600000 ≤ 99) :
    ∃ y, SignedTime.fromFormat
        ((SignedTime.fromMilliseconds (n : ℚ)).toStr defaultFormat)
        defaultFormat = .ok y ∧
      y.equals (SignedTime.fromMilliseconds (n : ℚ)) = true := by
  have htot : (SignedTime.fromMilliseconds (n : ℚ)).totalMilliseconds =
      (n : ℚ) := by
    simp [SignedTime.fromMilliseconds, SignedTime.new]
  have htoStr : (SignedTime.fromMilliseconds (n : ℚ)).toStr defaultFormat =
      (if n < 0 then ['-'] else []) ++
        (padStart 2 (natToChars (n.natAbs / 3600000)) ++ [':'] ++
          padStart 2 (natToChars (n.natAbs % 3600000 / 60000)) ++ [':'] ++
          padStart 2 (natToChars (n.natAbs % 60000 / 1000)) ++ ['.'] ++
          padStart 3 (natToChars (n.natAbs % 1000))) := by
    rw [SignedTime.toStr, htot, Int.floor_intCast, formatMilliseconds_default]
  have hH : n.natAbs / 3600000 < 100 := by omega
  have hMlt : n.natAbs % 3600000 / 60000 < 60 := by omega
  have hSlt : n.natAbs % 60000 / 1000 < 60 := by omega
  have hMSlt : n.natAbs % 1000 < 1000 := by omega
  obtain ⟨c0, t0, hc0eq, hc0d⟩ := padStart_two_cons (n.natAbs / 3600000) hH
  have hrec : n.natAbs / 3600000 * 3600000 +
      n.natAbs % 3600000 / 60000 * 60000 +
      n.natAbs % 60000 / 1000 * 1000 + n.natAbs % 1000 = n.natAbs := by
    omega
  have hq : ((n.natAbs / 3600000 : ℕ) : ℚ) * 3600000 +
      ((n.natAbs % 3600000 / 60000 : ℕ) : ℚ) * 60000 +
      ((n.natAbs % 60000 / 1000 : ℕ) : ℚ) * 1000 +
      ((n.natAbs % 1000 : ℕ) : ℚ) = ((n.natAbs : ℕ) : ℚ) := by
    have h := congrArg (fun m : ℕ => (m : ℚ)) hrec
    push_cast at h
    exact h
  by_cases hneg : n < 0
  · rw [htoStr, if_pos hneg, List.singleton_append]
    rw [fromFormat_default_core_neg _ _ _ _
      (padStart2_length _ hH) (padStart2_length _ (by omega))
      (padStart2_length _ (by omega)) (padStart3_length _ hMSlt)
      (padStart_all_digit_bool _ _) (padStart_all_digit_bool _ _)
      (padStart_all_digit_bool _ _) (padStart_all_digit_bool _ _)
      (by rw [parseDigits_pad_nat]; exact hMlt)
      (by rw [parseDigits_pad_nat]; exact hSlt)
      (by rw [parseDigits_pad_nat]; exact hMSlt)]
    refine ⟨_, rfl, ?_⟩
    simp only [parseDigits_pad_nat]
    have hna : ((n.natAbs : ℕ) : ℚ) = -(n : ℚ) := by
      rw [← abs_intCast_q]
      exact abs_of_neg (by exact_mod_cast hneg)
    simp only [SignedTime.equals, SignedTime.negate, SignedTime.fromMilliseconds,
      SignedTime.new, beq_iff_eq]
    ring_nf
    ring_nf at hq
    linarith [hq, hna]
  · rw [htoStr, if_neg hneg, List.nil_append]
    rw [fromFormat_default_core _ _ _ _
      (padStart2_length _ hH) (padStart2_length _ (by omega))
      (padStart2_length _ (by omega)) (padStart3_length _ hMSlt)
      (padStart_all_digit_bool _ _) (padStart_all_digit_bool _ _)
      (padStart_all_digit_bool _ _) (padStart_all_digit_bool _ _)
      (by rw [parseDigits_pad_nat]; exact hMlt)
      (by rw [parseDigits_pad_nat]; exact hSlt)
      (by rw [parseDigits_pad_nat]; exact hMSlt)
      c0 t0 hc0eq hc0d]
    refine ⟨_, rfl, ?_⟩
    simp only [parseDigits_pad_nat]
    have hna : ((n.natAbs : ℕ) : ℚ) = (n : ℚ) := by
      rw [← abs_intCast_q]
      exact abs_of_nonneg (by exact_mod_cast not_lt.mp hneg)
    simp only [SignedTime.equals, SignedTime.fromMilliseconds,
      SignedTime.new, beq_iff_eq]
    ring_nf
    ring_nf at hq
    linarith [hq, hna]

/-- Witness for C4 at `n = -5445500` (−1:30:45.500). -/
theorem claim_C4_roundtrip_witness :
    ((-5445500 : ℤ).natAbs / 3600000 ≤ 99) ∧
      ∃ y, SignedTime.fromFormat
          ((SignedTime.fromMilliseconds ((-5445500 : ℤ) : ℚ)).toStr
            defaultFormat) defaultFormat = .ok y ∧
        y.equals (SignedTime.fromMilliseconds ((-5445500 : ℤ) : ℚ)) = true :=
  ⟨by decide, claim_C4_roundtrip (-5445500) (by decide)⟩
